import Mathlib

/-!
Verification development for `cryptoexchange/bitmex_ws.py`.

The table-synchronization core of `BitMEXWebsocket` is embedded shallowly:

* a JSON-ish scalar value is `Val` (strings, numbers as exact rationals, null);
* a row (Python dict) is an association list `Row` in insertion order, with
  Python dict semantics for lookup/assignment (`lookupF`, `setField`);
* the table store (`self.data` / `self.keys`) is `Store`, a pair of
  insertion-ordered association maps keyed by the message's `table` field
  (which is `None` when absent, hence `Option String` keys);
* failure of a Python expression (KeyError, ValueError, TypeError, the
  explicit `raise`) is `Except String`; the per-message `try/except` of
  `__on_message` is the total function `onMessage`, whose error branch keeps
  the in-place mutations performed before the exception was raised;
* numbers are exact rationals; `math.log10` is modelled with the exact
  integer logarithm (`Int.log`/`Int.clog`, proved equal to the floor of the
  real `logb` below), and Python 3 `round` with round-half-to-even (`rhe`),
  exact on the tie values that occur; `float(s)` parsing of numeric strings
  is not modelled (a non-empty string argument is an error).
-/

namespace BitmexWS

/-- Decidable equality for `Except`, for evaluating the embedding on
concrete inputs. -/
instance {ε α : Type} [DecidableEq ε] [DecidableEq α] : DecidableEq (Except ε α) :=
  fun a b =>
  match a, b with
  | .error e, .error f =>
    match decEq e f with
    | .isTrue h => .isTrue (h ▸ rfl)
    | .isFalse h => .isFalse (fun c => h (Except.error.inj c))
  | .error _, .ok _ => .isFalse (fun c => Except.noConfusion c)
  | .ok _, .error _ => .isFalse (fun c => Except.noConfusion c)
  | .ok x, .ok y =>
    match decEq x y with
    | .isTrue h => .isTrue (h ▸ rfl)
    | .isFalse h => .isFalse (fun c => h (Except.ok.inj c))

/-- A JSON scalar value as stored in a row. -/
inductive Val where
  | vStr : String → Val
  | vNum : ℚ → Val
  | vNull : Val
deriving DecidableEq

/-- A row: a Python dict in insertion order (`message['data']` elements). -/
abbrev Row := List (String × Val)

/-- `r[k]` — Python dict indexing: first binding of `k`, KeyError if absent. -/
def lookupF (r : Row) (k : String) : Except String Val :=
  match r with
  | [] => .error "KeyError"
  | p :: rest => if p.1 = k then .ok p.2 else lookupF rest k

/-- `r.get(k)`-style total lookup, for stating properties. -/
def getField (r : Row) (k : String) : Option Val :=
  match r with
  | [] => none
  | p :: rest => if p.1 = k then some p.2 else getField rest k

/-- `r[k] = v` — Python dict assignment: overwrite in place if the key is
present (keeping its position), append otherwise. -/
def setField (r : Row) (k : String) (v : Val) : Row :=
  match r with
  | [] => [(k, v)]
  | p :: rest => if p.1 = k then (k, v) :: rest else p :: setField rest k v

/-- `item.update(updateData)` — merge the update's bindings into `r`,
in the update's order. -/
def mergeRow (r d : Row) : Row :=
  d.foldl (fun acc p => setField acc p.1 p.2) r

/-- The inner loop of `findItemByKeys` for one candidate `item`: compare
`item[key] != matchData[key]` for every key (the source does not break on a
mismatch, so a missing key in either dict raises even after a mismatch). -/
def rowMatchE (ks : List String) (item d : Row) : Except String Bool :=
  match ks with
  | [] => .ok true
  | k :: rest =>
    match lookupF item k with
    | .error e => .error e
    | .ok a =>
      match lookupF d k with
      | .error e => .error e
      | .ok b =>
        match rowMatchE rest item d with
        | .error e => .error e
        | .ok m => .ok (a = b && m)

/-- `findItemByKeys(keys, table, matchData)`, returning the index of the first
row that matches on every key (the source returns the row object itself;
object identity is the index here).  `.ok none` is the implicit `None`. -/
def findIdxE (ks : List String) (t : List Row) (d : Row) : Except String (Option Nat) :=
  match t with
  | [] => .ok none
  | r :: rest =>
    match rowMatchE ks r d with
    | .error e => .error e
    | .ok true => .ok (some 0)
    | .ok false =>
      match findIdxE ks rest d with
      | .error e => .error e
      | .ok o => .ok (o.map (· + 1))

/-- Result of the `update` action's row loop: `done` fell off the end of the
loop, `ret` is the early `return` on a falsy `item`, `err` is a raised
exception.  Each carries the table contents at that moment (mutations are in
place in the source, so they survive `ret`/`err`). -/
inductive LoopRes where
  | done : List Row → LoopRes
  | ret : List Row → LoopRes
  | err : List Row → LoopRes
deriving DecidableEq

/-- The table contents carried by a `LoopRes`. -/
def LoopRes.table : LoopRes → List Row
  | .done t => t
  | .ret t => t
  | .err t => t

/-- The `action == 'update'` row loop of `__on_message`.  `oks` is the entry
of `self.keys` for this table (`none` raises KeyError, looked up per row, so
an empty data list never raises).  Per row: locate the item; `if not item:
return` (true for `None` and for an empty dict); merge in place; for table
`order`, evict the row when its merged `leavesQty` is `<= 0` (a missing or
non-numeric `leavesQty` raises, after the merge has already happened). -/
def applyUpdateRows : Option String → Option (List String) →
    List Row → List Row → LoopRes
  | _, _, [], t => .done t
  | _, none, _ :: _, t => .err t
  | tbl, some ks, d :: ds, t =>
    match findIdxE ks t d with
    | .error _ => .err t
    | .ok none => .ret t
    | .ok (some i) =>
      if t[i]?.getD [] = [] then .ret t
      else
        let merged := mergeRow (t[i]?.getD []) d
        let t1 := t.set i merged
        if tbl = some "order" then
          match lookupF merged "leavesQty" with
          | .error _ => .err t1
          | .ok (Val.vNum q) =>
            if q ≤ 0 then applyUpdateRows tbl (some ks) ds (t1.eraseIdx i)
            else applyUpdateRows tbl (some ks) ds t1
          | .ok _ => .err t1
        else applyUpdateRows tbl (some ks) ds t1

/-- The `action == 'delete'` row loop.  An unmatched row reaches
`self.data[table].remove(None)`, which raises ValueError; `list.remove(item)`
on a found item removes exactly the row at the matched index (an earlier
equal row would itself have matched first). -/
def applyDeleteRows : Option (List String) →
    List Row → List Row → Except (List Row) (List Row)
  | _, [], t => .ok t
  | none, _ :: _, t => .error t
  | some ks, d :: ds, t =>
    match findIdxE ks t d with
    | .error _ => .error t
    | .ok none => .error t
    | .ok (some i) => applyDeleteRows (some ks) ds (t.eraseIdx i)

/-- Insertion-ordered association update for the store maps. -/
def setEntry {β : Type} : List (Option String × β) → Option String → β →
    List (Option String × β)
  | [], k, v => [(k, v)]
  | p :: rest, k, v => if p.1 = k then (k, v) :: rest else p :: setEntry rest k v

/-- Insertion-ordered association lookup for the store maps. -/
def findEntry? {β : Type} : List (Option String × β) → Option String → Option β
  | [], _ => none
  | p :: rest, k => if p.1 = k then some p.2 else findEntry? rest k

/-- `self.data` and `self.keys`: table name (`None` when the message has no
`table` field) to row list, and to identity-key list. -/
structure Store where
  data : List (Option String × List Row)
  keys : List (Option String × List String)
deriving DecidableEq

def getTable? (s : Store) (tbl : Option String) : Option (List Row) :=
  findEntry? s.data tbl

/-- The table's rows, `[]` when the table is absent. -/
def getTableD (s : Store) (tbl : Option String) : List Row :=
  (getTable? s tbl).getD []

def getKeys? (s : Store) (tbl : Option String) : Option (List String) :=
  findEntry? s.keys tbl

def setTable (s : Store) (tbl : Option String) (t : List Row) : Store :=
  ⟨setEntry s.data tbl t, s.keys⟩

def setKeysE (s : Store) (tbl : Option String) (ks : List String) : Store :=
  ⟨s.data, setEntry s.keys tbl ks⟩

/-- `if table not in self.data: self.data[table] = []`. -/
def ensureTable (s : Store) (tbl : Option String) : Store :=
  if (getTable? s tbl).isSome then s else ⟨s.data ++ [(tbl, [])], s.keys⟩

/-- One decoded inbound message: presence of `subscribe`, the optional
`table` and `action` fields, and the optional `data` and `keys` payloads
(each raising KeyError where the source indexes into a message lacking it). -/
structure Msg where
  subscribe : Option Val
  table : Option String
  action : Option String
  data : Option (List Row)
  keys : Option (List String)
deriving DecidableEq

/-- The body of the `try` in `__on_message`, after the empty table has been
created: dispatch on the action string.  `.error` carries the store as
mutated up to the raise. -/
def applyAction (s : Store) (tbl : Option String) (a : String)
    (mdata : Option (List Row)) (mkeys : Option (List String)) :
    Except Store Store :=
  if a = "partial" then
    match mdata with
    | none => .error s
    | some rows =>
      let s1 := setTable s tbl (getTableD s tbl ++ rows)
      match mkeys with
      | none => .error s1
      | some ks => .ok (setKeysE s1 tbl ks)
  else if a = "insert" then
    match mdata with
    | none => .error s
    | some rows => .ok (setTable s tbl (getTableD s tbl ++ rows))
  else if a = "update" then
    match mdata with
    | none => .error s
    | some rows =>
      match applyUpdateRows tbl (getKeys? s tbl) rows (getTableD s tbl) with
      | .done t2 => .ok (setTable s tbl t2)
      | .ret t2 => .ok (setTable s tbl t2)
      | .err t2 => .error (setTable s tbl t2)
  else if a = "delete" then
    match mdata with
    | none => .error s
    | some rows =>
      match applyDeleteRows (getKeys? s tbl) rows (getTableD s tbl) with
      | .ok t2 => .ok (setTable s tbl t2)
      | .error t2 => .error (setTable s tbl t2)
  else .error s

/-- `__on_message`: a `subscribe` ack is logged and ignored; a falsy action
(absent or `""`) is ignored; otherwise the table entry is created if new and
the action applied, with any exception caught and logged at this boundary
(the store keeps the mutations made before the raise). -/
def onMessage (s : Store) (m : Msg) : Store :=
  if m.subscribe.isSome then s
  else
    match m.action with
    | none => s
    | some a =>
      if a = "" then s
      else
        let s1 := ensureTable s m.table
        match applyAction s1 m.table a m.data m.keys with
        | .ok s2 => s2
        | .error s2 => s2

/-- The delivery thread folds inbound messages into the store one at a time. -/
def processMsgs (s : Store) (ms : List Msg) : Store :=
  ms.foldl onMessage s

/-! ### Query surface -/

/-- `int(math.fabs(math.log10(ts)))` over exact rationals: `math.fabs` makes
the value nonnegative, so Python's `int()` truncation toward zero is the
floor; `Int.log`/`Int.clog` are the exact integer floor/ceiling logarithms,
and `tickLog_eq_floor_logb` below proves this equals `⌊|log10 ts|⌋`. -/
def tickLogQ (q : ℚ) : ℤ :=
  if 1 ≤ q then Int.log 10 q else -Int.clog 10 q

/-- The argument of `math.log10`: a non-numeric value is a TypeError, a
non-positive number a math domain error. -/
def asPosRat (v : Val) : Except String ℚ :=
  match v with
  | .vNum q => if 0 < q then .ok q else .error "ValueError: math domain error"
  | _ => .error "TypeError"

/-- `get_instrument()`: takes `self.data['instrument'][0]`, writes the
derived `tickLog` field INTO that stored row (`instrument['tickLog'] = ...`
mutates the row object held by the table), and returns the row.  The result
pairs the returned row with the store after this write. -/
def getInstrument (s : Store) : Except String (Row × Store) :=
  match getTable? s (some "instrument") with
  | none => .error "KeyError"
  | some t =>
    match t.get? 0 with
    | none => .error "IndexError"
    | some r =>
      match lookupF r "tickSize" with
      | .error e => .error e
      | .ok v =>
        match asPosRat v with
        | .error e => .error e
        | .ok q =>
          let r2 := setField r "tickLog" (Val.vNum (tickLogQ q : ℚ))
          .ok (r2, setTable s (some "instrument") (t.set 0 r2))

/-- Python 3 round-half-to-even to an integer, on exact rationals. -/
def rhe (x : ℚ) : ℤ :=
  if x - ⌊x⌋ < 1 / 2 then ⌊x⌋
  else if (1 : ℚ) / 2 < x - ⌊x⌋ then ⌊x⌋ + 1
  else if ⌊x⌋ % 2 = 0 then ⌊x⌋ else ⌊x⌋ + 1

/-- `round(x, n)` — round to `n` decimal places, ties to even. -/
def pyRound (x : ℚ) (n : ℤ) : ℚ :=
  (rhe (x * (10 : ℚ) ^ n) : ℚ) / (10 : ℚ) ^ n

/-- `float(v or 0)`: a falsy value (`None`, `0`, `""`) becomes `0`; a number
is itself; `float` applied to a non-empty string is modelled as an error
(the rows in scope hold numbers in their numeric fields). -/
def orZeroFloat (v : Val) : Except String ℚ :=
  match v with
  | .vNum q => .ok q
  | .vNull => .ok 0
  | .vStr a => if a = "" then .ok 0 else .error "float(str) not modelled"

/-- The `ndigits` argument of `round` must be a Python int. -/
def asIntQ (v : Val) : Except String ℤ :=
  match v with
  | .vNum q => if q.den = 1 then .ok q.num else .error "TypeError"
  | _ => .error "TypeError"

/-- `table[-1]`: last element, IndexError when empty. -/
def lastRow (t : List Row) : Except String Row :=
  match t.getLast? with
  | some r => .ok r
  | none => .error "IndexError"

/-- The final dict comprehension of `get_ticker`:
`{k: round(float(v or 0), instrument['tickLog']) for k, v in ticker.items()}`
(the `tickLog` lookup happens per item, after the `float` conversion). -/
def roundTicker (instr : Row) : Row → Except String Row
  | [] => .ok []
  | p :: rest =>
    match orZeroFloat p.2 with
    | .error e => .error e
    | .ok q =>
      match lookupF instr "tickLog" with
      | .error e => .error e
      | .ok tlv =>
        match asIntQ tlv with
        | .error e => .error e
        | .ok tl =>
          match roundTicker instr rest with
          | .error e => .error e
          | .ok rs => .ok ((p.1, Val.vNum (pyRound q tl)) :: rs)

/-- `get_ticker()`: the raw ticker from the last quote and last trade rows
(`mid` averages the falsy-coalesced bid and ask), then every field rounded
to the instrument's `tickLog` decimal places. -/
def getTickerRow (s : Store) : Except String Row :=
  match getTable? s (some "quote") with
  | none => .error "KeyError"
  | some quotes =>
    match lastRow quotes with
    | .error e => .error e
    | .ok lastQuote =>
      match getTable? s (some "trade") with
      | none => .error "KeyError"
      | some trades =>
        match lastRow trades with
        | .error e => .error e
        | .ok lastTrade =>
          match lookupF lastTrade "price" with
          | .error e => .error e
          | .ok lastV =>
            match lookupF lastQuote "bidPrice" with
            | .error e => .error e
            | .ok buyV =>
              match lookupF lastQuote "askPrice" with
              | .error e => .error e
              | .ok sellV =>
                match orZeroFloat buyV with
                | .error e => .error e
                | .ok b =>
                  match orZeroFloat sellV with
                  | .error e => .error e
                  | .ok a2 =>
                    let ticker : Row :=
                      [("last", lastV), ("buy", buyV), ("sell", sellV),
                       ("mid", Val.vNum ((b + a2) / 2))]
                    match getTable? s (some "instrument") with
                    | none => .error "KeyError"
                    | some instrs =>
                      match instrs.get? 0 with
                      | none => .error "IndexError"
                      | some instr => roundTicker instr ticker

/-- `get_ticker()` reads the store and builds a fresh dict. -/
def getTicker (s : Store) : Except String (Row × Store) :=
  match getTickerRow s with
  | .error e => .error e
  | .ok r => .ok (r, s)

/-- `funds()`: `self.data['margin'][0]`. -/
def funds (s : Store) : Except String (Row × Store) :=
  match getTable? s (some "margin") with
  | none => .error "KeyError"
  | some t =>
    match t.get? 0 with
    | none => .error "IndexError"
    | some r => .ok (r, s)

/-- `market_depth()`: the whole `orderBook25` table. -/
def marketDepth (s : Store) : Except String (List Row × Store) :=
  match getTable? s (some "orderBook25") with
  | none => .error "KeyError"
  | some t => .ok (t, s)

/-- `recent_trades()`: the whole `trade` table. -/
def recentTrades (s : Store) : Except String (List Row × Store) :=
  match getTable? s (some "trade") with
  | none => .error "KeyError"
  | some t => .ok (t, s)

/-- `str(v)` as used on `clOrdID` values; exact for strings and integers
(the only shapes that reach `startswith` in the claims). -/
def strVal (v : Val) : String :=
  match v with
  | .vStr a => a
  | .vNum q => toString q
  | .vNull => "None"

/-- The `open_orders` comprehension filter:
`str(o['clOrdID']).startswith(prefix) and o['leavesQty'] > 0`, with Python's
left-to-right short-circuit (the `leavesQty` lookup and comparison only
happen when the prefix test passed; comparing a non-number raises). -/
def openOrdersFilter (pfx : String) : List Row → Except String (List Row)
  | [] => .ok []
  | o :: rest =>
    match lookupF o "clOrdID" with
    | .error e => .error e
    | .ok cid =>
      if (strVal cid).startsWith pfx then
        match lookupF o "leavesQty" with
        | .error e => .error e
        | .ok (Val.vNum q) =>
          match openOrdersFilter pfx rest with
          | .error e => .error e
          | .ok rs => .ok (if 0 < q then o :: rs else rs)
        | .ok _ => .error "TypeError"
      else
        openOrdersFilter pfx rest

/-- `open_orders(clOrdIDPrefix)`. -/
def openOrders (pfx : String) (s : Store) : Except String (List Row × Store) :=
  match getTable? s (some "order") with
  | none => .error "KeyError"
  | some t =>
    match openOrdersFilter pfx t with
    | .error e => .error e
    | .ok l => .ok (l, s)

/-! ### Store map lemmas -/

theorem findEntry_setEntry_self {β : Type} (l : List (Option String × β))
    (k : Option String) (v : β) : findEntry? (setEntry l k v) k = some v := by
  induction l with
  | nil => simp [setEntry, findEntry?]
  | cons p rest ih =>
    by_cases h : p.1 = k
    · simp [setEntry, findEntry?, h]
    · simp [setEntry, findEntry?, h, ih]

theorem findEntry_setEntry_ne {β : Type} (l : List (Option String × β))
    (k k2 : Option String) (v : β) (h : k ≠ k2) :
    findEntry? (setEntry l k v) k2 = findEntry? l k2 := by
  induction l with
  | nil => simp [setEntry, findEntry?, h]
  | cons p rest ih =>
    by_cases hp : p.1 = k
    · have hp2 : p.1 ≠ k2 := by rw [hp]; exact h
      simp [setEntry, findEntry?, hp, h, hp2]
    · simp [setEntry, findEntry?, hp, ih]

theorem setEntry_of_findEntry {β : Type} (l : List (Option String × β))
    (k : Option String) (v : β) (h : findEntry? l k = some v) :
    setEntry l k v = l := by
  induction l with
  | nil => simp [findEntry?] at h
  | cons p rest ih =>
    by_cases hp : p.1 = k
    · simp only [findEntry?, hp, if_pos] at h
      have h2 : p.2 = v := Option.some.inj h
      simp only [setEntry, hp, if_pos]
      rw [← hp, ← h2]
    · simp only [findEntry?, hp, if_neg, ite_false] at h
      simp [setEntry, hp, ih h]

theorem findEntry_append_of_none {β : Type} (l m : List (Option String × β))
    (k : Option String) (h : findEntry? l k = none) :
    findEntry? (l ++ m) k = findEntry? m k := by
  induction l with
  | nil => simp
  | cons p rest ih =>
    by_cases hp : p.1 = k
    · simp [findEntry?, hp] at h
    · simp only [findEntry?, hp, ite_false, if_neg] at h ⊢
      simp [List.cons_append, findEntry?, hp, ih h]

theorem getTable_setTable_self (s : Store) (tbl : Option String) (t : List Row) :
    getTable? (setTable s tbl t) tbl = some t :=
  findEntry_setEntry_self s.data tbl t

theorem getTable_setTable_ne (s : Store) (tbl tb2 : Option String) (t : List Row)
    (h : tbl ≠ tb2) : getTable? (setTable s tbl t) tb2 = getTable? s tb2 :=
  findEntry_setEntry_ne s.data tbl tb2 t h

theorem getKeys_setTable (s : Store) (tbl tb2 : Option String) (t : List Row) :
    getKeys? (setTable s tbl t) tb2 = getKeys? s tb2 := rfl

theorem getTable_setKeysE (s : Store) (tbl tb2 : Option String) (ks : List String) :
    getTable? (setKeysE s tbl ks) tb2 = getTable? s tb2 := rfl

theorem getKeys_setKeysE_self (s : Store) (tbl : Option String) (ks : List String) :
    getKeys? (setKeysE s tbl ks) tbl = some ks :=
  findEntry_setEntry_self s.keys tbl ks

theorem getTable_ensure (s : Store) (tbl : Option String) :
    getTable? (ensureTable s tbl) tbl = some (getTableD s tbl) := by
  unfold ensureTable getTableD
  cases h : getTable? s tbl with
  | some t => simp [h]
  | none =>
    simp only [h, Option.isSome_none, Bool.false_eq_true, if_neg, ite_false]
    show findEntry? (s.data ++ [(tbl, [])]) tbl = _
    rw [findEntry_append_of_none s.data _ tbl h]
    simp [findEntry?]

theorem getTableD_ensure (s : Store) (tbl : Option String) :
    getTableD (ensureTable s tbl) tbl = getTableD s tbl := by
  rw [getTableD, getTable_ensure]; rfl

theorem getKeys_ensure (s : Store) (tbl tb2 : Option String) :
    getKeys? (ensureTable s tbl) tb2 = getKeys? s tb2 := by
  unfold ensureTable
  split <;> rfl

theorem setTable_ensure_self (s : Store) (tbl : Option String) :
    setTable (ensureTable s tbl) tbl (getTableD s tbl) = ensureTable s tbl := by
  have h := getTable_ensure s tbl
  unfold setTable
  rw [setEntry_of_findEntry _ tbl _ h]

/-! ### Row and merge lemmas -/

theorem getField_setField_self (r : Row) (k : String) (v : Val) :
    getField (setField r k v) k = some v := by
  induction r with
  | nil => simp [setField, getField]
  | cons p rest ih =>
    by_cases h : p.1 = k
    · simp [setField, getField, h]
    · simp [setField, getField, h, ih]

theorem getField_setField_ne (r : Row) (k k2 : String) (v : Val) (h : k ≠ k2) :
    getField (setField r k v) k2 = getField r k2 := by
  induction r with
  | nil => simp [setField, getField, h]
  | cons p rest ih =>
    by_cases hp : p.1 = k
    · have hp2 : p.1 ≠ k2 := by rw [hp]; exact h
      simp [setField, getField, hp, h, hp2]
    · simp [setField, getField, hp, ih]

theorem getField_eq_none (d : Row) (k : String) (h : k ∉ d.map Prod.fst) :
    getField d k = none := by
  induction d with
  | nil => rfl
  | cons p rest ih =>
    simp only [List.map_cons, List.mem_cons, not_or] at h
    have : p.1 ≠ k := fun c => h.1 c.symm
    simp [getField, this, ih h.2]

/-- Field view of `dict.update`: a field of the update wins, any other field
keeps its prior value (for updates without duplicate field names, as decoded
JSON objects are). -/
theorem getField_mergeRow (r d : Row) (k : String) (hd : (d.map Prod.fst).Nodup) :
    getField (mergeRow r d) k =
      match getField d k with
      | some v => some v
      | none => getField r k := by
  induction d generalizing r with
  | nil => simp [mergeRow, getField]
  | cons p ds ih =>
    simp only [List.map_cons, List.nodup_cons] at hd
    have step : mergeRow r (p :: ds) = mergeRow (setField r p.1 p.2) ds := rfl
    rw [step, ih _ hd.2]
    by_cases h : p.1 = k
    · subst h
      have hnone : getField ds p.1 = none := getField_eq_none ds p.1 hd.1
      simp [hnone, getField, getField_setField_self]
    · simp only [getField, h, ite_false, if_neg]
      cases getField ds k with
      | some v => rfl
      | none => exact getField_setField_ne r p.1 k p.2 h

/-! ### findItemByKeys: first match in insertion order -/

theorem findIdxE_some (ks : List String) (t : List Row) (d : Row) (i : Nat)
    (h : findIdxE ks t d = .ok (some i)) :
    i < t.length ∧ rowMatchE ks (t[i]?.getD []) d = .ok true ∧
      ∀ j, j < i → rowMatchE ks (t[j]?.getD []) d = .ok false := by
  induction t generalizing i with
  | nil => simp [findIdxE] at h
  | cons r rest ih =>
    unfold findIdxE at h
    cases hm : rowMatchE ks r d with
    | error e => rw [hm] at h; exact absurd h (by simp)
    | ok b =>
      rw [hm] at h
      cases b with
      | true =>
        have h0 : 0 = i := by simpa using h
        subst h0
        exact ⟨by simp, by simpa using hm, fun j hj => absurd hj (by omega)⟩
      | false =>
        cases hf : findIdxE ks rest d with
        | error e => rw [hf] at h; simp at h
        | ok o =>
          rw [hf] at h
          cases o with
          | none => simp at h
          | some i2 =>
            have h2 : i2 + 1 = i := by simpa using h
            subst h2
            obtain ⟨h1, h2, h3⟩ := ih i2 hf
            refine ⟨by simpa using h1, by simpa using h2, ?_⟩
            intro j hj
            cases j with
            | zero => simpa using hm
            | succ j2 => simpa using h3 j2 (by omega)

theorem findIdxE_nil_keys (r : Row) (rest : List Row) (d : Row) :
    findIdxE [] (r :: rest) d = .ok (some 0) := rfl

/-! ### Loop splitting -/

theorem applyUpdateRows_append (tbl : Option String) (oks : Option (List String))
    (pre rest : List Row) (t : List Row) :
    applyUpdateRows tbl oks (pre ++ rest) t =
      match applyUpdateRows tbl oks pre t with
      | .done t1 => applyUpdateRows tbl oks rest t1
      | .ret t1 => .ret t1
      | .err t1 => .err t1 := by
  cases oks with
  | none =>
    cases pre with
    | nil => simp [applyUpdateRows]
    | cons d ds => simp [applyUpdateRows]
  | some ks =>
    induction pre generalizing t with
    | nil => simp [applyUpdateRows]
    | cons d ds ih =>
      simp only [List.cons_append, applyUpdateRows]
      cases hfd : findIdxE ks t d with
      | error e => rfl
      | ok o =>
        cases o with
        | none => rfl
        | some i =>
          by_cases hi : t[i]?.getD ([] : Row) = []
          · simp [hi]
          · simp only [hi, ite_false, if_neg]
            by_cases ho : tbl = some "order"
            · subst ho
              simp only [ite_true, if_pos]
              cases hlk : lookupF (mergeRow (t[i]?.getD []) d) "leavesQty" with
              | error e => simp
              | ok v =>
                cases v with
                | vStr a => simp
                | vNull => simp
                | vNum q =>
                  by_cases hq : q ≤ 0
                  · simp [hq, ih]
                  · simp [hq, ih]
            · simp only [ho, ite_false, if_neg]
              exact ih _

theorem applyDeleteRows_append (oks : Option (List String))
    (pre rest : List Row) (t : List Row) :
    applyDeleteRows oks (pre ++ rest) t =
      match applyDeleteRows oks pre t with
      | .ok t1 => applyDeleteRows oks rest t1
      | .error t1 => .error t1 := by
  cases oks with
  | none =>
    cases pre with
    | nil => simp [applyDeleteRows]
    | cons d ds => simp [applyDeleteRows]
  | some ks =>
    induction pre generalizing t with
    | nil => simp [applyDeleteRows]
    | cons d ds ih =>
      simp only [List.cons_append, applyDeleteRows]
      cases hfd : findIdxE ks t d with
      | error e => rfl
      | ok o =>
        cases o with
        | none => rfl
        | some i => simp [ih]

/-! ### onMessage evaluation, per action -/

theorem ensure_of_present (s : Store) (tbl : Option String)
    (h : (getTable? s tbl).isSome = true) : ensureTable s tbl = s := by
  unfold ensureTable
  rw [if_pos h]

/-- The table contents carried by the delete loop's result. -/
def exTable : Except (List Row) (List Row) → List Row
  | .ok t => t
  | .error t => t

theorem onMessage_partialMsg (s : Store) (tbl : Option String) (R : List Row)
    (K : List String) :
    onMessage s ⟨none, tbl, some "partial", some R, some K⟩ =
      setKeysE (setTable (ensureTable s tbl) tbl (getTableD s tbl ++ R)) tbl K := by
  unfold onMessage applyAction
  simp [getTableD_ensure]

theorem onMessage_insert (s : Store) (tbl : Option String) (R : List Row)
    (mkeys : Option (List String)) :
    onMessage s ⟨none, tbl, some "insert", some R, mkeys⟩ =
      setTable (ensureTable s tbl) tbl (getTableD s tbl ++ R) := by
  unfold onMessage applyAction
  simp [getTableD_ensure]

theorem onMessage_update (s : Store) (tbl : Option String) (rows : List Row)
    (mkeys : Option (List String)) :
    onMessage s ⟨none, tbl, some "update", some rows, mkeys⟩ =
      setTable (ensureTable s tbl) tbl
        (LoopRes.table (applyUpdateRows tbl (getKeys? s tbl) rows (getTableD s tbl))) := by
  unfold onMessage applyAction
  simp only [Option.isSome_none, Bool.false_eq_true, if_neg, ite_false]
  rw [getTableD_ensure, getKeys_ensure]
  simp only [String.reduceEq, ite_false, ite_true, if_pos, if_neg]
  cases applyUpdateRows tbl (getKeys? s tbl) rows (getTableD s tbl) <;> rfl

theorem onMessage_delete (s : Store) (tbl : Option String) (rows : List Row)
    (mkeys : Option (List String)) :
    onMessage s ⟨none, tbl, some "delete", some rows, mkeys⟩ =
      setTable (ensureTable s tbl) tbl
        (exTable (applyDeleteRows (getKeys? s tbl) rows (getTableD s tbl))) := by
  unfold onMessage applyAction
  simp only [Option.isSome_none, Bool.false_eq_true, if_neg, ite_false]
  rw [getTableD_ensure, getKeys_ensure]
  simp only [String.reduceEq, ite_false, ite_true, if_pos, if_neg]
  cases applyDeleteRows (getKeys? s tbl) rows (getTableD s tbl) <;> rfl

theorem onMessage_unknown_action (s : Store) (tbl : Option String) (a : String)
    (mdata : Option (List Row)) (mkeys : Option (List String))
    (h0 : a ≠ "") (h1 : a ≠ "partial") (h2 : a ≠ "insert") (h3 : a ≠ "update")
    (h4 : a ≠ "delete") :
    onMessage s ⟨none, tbl, some a, mdata, mkeys⟩ = ensureTable s tbl := by
  unfold onMessage applyAction
  simp [h0, h1, h2, h3, h4]

/-! ### open_orders membership -/

theorem mem_openOrdersFilter (pfx : String) (rows res : List Row) (o : Row)
    (h : openOrdersFilter pfx rows = .ok res) (ho : o ∈ res) :
    ∃ q, lookupF o "leavesQty" = .ok (Val.vNum q) ∧ 0 < q := by
  induction rows generalizing res with
  | nil =>
    simp only [openOrdersFilter, Except.ok.injEq] at h
    subst h
    simp at ho
  | cons o2 rest ih =>
    unfold openOrdersFilter at h
    cases hc : lookupF o2 "clOrdID" with
    | error e => rw [hc] at h; simp at h
    | ok cid =>
      rw [hc] at h
      simp only [] at h
      by_cases hs : (strVal cid).startsWith pfx
      · rw [if_pos hs] at h
        cases hlq : lookupF o2 "leavesQty" with
        | error e => rw [hlq] at h; exact absurd h (by simp)
        | ok v =>
          rw [hlq] at h
          cases v with
          | vStr a => simp at h
          | vNull => simp at h
          | vNum q =>
            cases hrec : openOrdersFilter pfx rest with
            | error e => rw [hrec] at h; exact absurd h (by simp)
            | ok rs =>
              rw [hrec] at h
              simp only [Except.ok.injEq] at h
              subst h
              by_cases hq : 0 < q
              · rw [if_pos hq] at ho
                rcases List.mem_cons.mp ho with rfl | hmem
                · exact ⟨q, hlq, hq⟩
                · exact ih rs hrec hmem
              · rw [if_neg hq] at ho
                exact ih rs hrec ho
      · rw [if_neg hs] at h
        exact ih res h ho

/-! ### Claim C1 -/

/-- Claim C1, counterexample: starting from an empty store, a `partial` for
table `t` with row `{a: 1}` and keys `[a]` followed by a second `partial`
with row `{a: 2}` and keys `[a]` leaves the table holding BOTH rows — the
source appends (`self.data[table] += message['data']`), so the table does
not contain exactly the second partial's rows as the claim states. -/
theorem C1_counterexample :
    getTable? (onMessage (onMessage ⟨[], []⟩
        ⟨none, some "t", some "partial", some [[("a", Val.vNum 1)]], some ["a"]⟩)
        ⟨none, some "t", some "partial", some [[("a", Val.vNum 2)]], some ["a"]⟩)
        (some "t") ≠ some [[("a", Val.vNum 2)]] ∧
    getTable? (onMessage (onMessage ⟨[], []⟩
        ⟨none, some "t", some "partial", some [[("a", Val.vNum 1)]], some ["a"]⟩)
        ⟨none, some "t", some "partial", some [[("a", Val.vNum 2)]], some ["a"]⟩)
        (some "t") = some [[("a", Val.vNum 1)], [("a", Val.vNum 2)]] := by
  constructor
  · decide
  · decide

/-- Claim C1 (amended): applying a `partial` for table T with rows R and
keys K and then a second `partial` with rows R′ and keys K′ leaves T
containing its prior contents followed by R and then R′ — each `partial`
appends its rows, so the rows from the first partial ARE retained — and
leaves K′ as T's active Key Set. -/
theorem C1_partial_appends (s : Store) (tbl : Option String) (R Rp : List Row)
    (K Kp : List String) :
    getTable? (onMessage (onMessage s ⟨none, tbl, some "partial", some R, some K⟩)
        ⟨none, tbl, some "partial", some Rp, some Kp⟩) tbl
      = some (getTableD s tbl ++ R ++ Rp) ∧
    getKeys? (onMessage (onMessage s ⟨none, tbl, some "partial", some R, some K⟩)
        ⟨none, tbl, some "partial", some Rp, some Kp⟩) tbl = some Kp := by
  rw [onMessage_partialMsg, onMessage_partialMsg]
  have hfind : getTable? (setKeysE (setTable (ensureTable s tbl) tbl
      (getTableD s tbl ++ R)) tbl K) tbl = some (getTableD s tbl ++ R) := by
    rw [getTable_setKeysE, getTable_setTable_self]
  rw [ensure_of_present _ _ (by rw [hfind]; rfl)]
  have hD : getTableD (setKeysE (setTable (ensureTable s tbl) tbl
      (getTableD s tbl ++ R)) tbl K) tbl = getTableD s tbl ++ R := by
    rw [getTableD, hfind]; rfl
  rw [hD]
  constructor
  · rw [getTable_setKeysE, getTable_setTable_self]
  · exact getKeys_setKeysE_self _ _ _

/-! ### Claim C2 -/

/-- Claim C2: an `update` row `d` that matches the row at index `i` of the
`order` table (first match on the key set, the matched row non-empty, `d`
without duplicate field names) is merged into that row in place — a field of
`d` wins, a field absent from `d` keeps its prior value — and since the
merged row's `leavesQty` is `≤ 0`, the row is removed from the table, and a
subsequent `open_orders` call never returns the merged row (every returned
row has `leavesQty > 0`). -/
theorem C2_update_merge_eviction (s : Store) (ks : List String) (d : Row)
    (t : List Row) (i : Nat) (r : Row) (q : ℚ)
    (hnd : (d.map Prod.fst).Nodup)
    (ht : getTableD s (some "order") = t)
    (hks : getKeys? s (some "order") = some ks)
    (hfind : findIdxE ks t d = .ok (some i))
    (hr : t[i]?.getD [] = r) (hne : r ≠ [])
    (hlq : lookupF (mergeRow r d) "leavesQty" = .ok (Val.vNum q)) (hq : q ≤ 0) :
    (∀ k : String, getField (mergeRow r d) k =
        match getField d k with | some v => some v | none => getField r k) ∧
    onMessage s ⟨none, some "order", some "update", some [d], none⟩ =
      setTable (ensureTable s (some "order")) (some "order")
        ((t.set i (mergeRow r d)).eraseIdx i) ∧
    (∀ pfx res s2,
        openOrders pfx (onMessage s ⟨none, some "order", some "update", some [d], none⟩)
          = .ok (res, s2) → mergeRow r d ∉ res) := by
  have hsingle : applyUpdateRows (some "order") (some ks) [d] t
      = .done ((t.set i (mergeRow r d)).eraseIdx i) := by
    simp only [applyUpdateRows, hfind]
    rw [hr, if_neg hne]
    simp only [ite_true, if_pos]
    rw [hlq]
    simp [hq]
  have hmsg : onMessage s ⟨none, some "order", some "update", some [d], none⟩ =
      setTable (ensureTable s (some "order")) (some "order")
        ((t.set i (mergeRow r d)).eraseIdx i) := by
    rw [onMessage_update, hks, ht, hsingle]
    rfl
  refine ⟨fun k => getField_mergeRow r d k hnd, hmsg, ?_⟩
  intro pfx res s2 hoo hmem
  unfold openOrders at hoo
  cases hg : getTable? (onMessage s ⟨none, some "order", some "update", some [d], none⟩)
      (some "order") with
  | none => rw [hg] at hoo; simp at hoo
  | some t2 =>
    rw [hg] at hoo
    simp only [] at hoo
    cases hof : openOrdersFilter pfx t2 with
    | error e => rw [hof] at hoo; simp at hoo
    | ok l =>
      rw [hof] at hoo
      simp only [Except.ok.injEq, Prod.mk.injEq] at hoo
      obtain ⟨qq, hq1, hq2⟩ :=
        mem_openOrdersFilter pfx t2 res (mergeRow r d) (hoo.1 ▸ hof) hmem
      rw [hlq] at hq1
      have : q = qq := by
        have := Except.ok.inj hq1
        exact Val.vNum.inj this
      exact absurd hq2 (by rw [← this]; exact not_lt.mpr hq)

def c2store : Store :=
  ⟨[(some "order", [[("orderID", Val.vNum 42), ("leavesQty", Val.vNum 5)]])],
   [(some "order", ["orderID"])]⟩

def c2datum : Row := [("orderID", Val.vNum 42), ("leavesQty", Val.vNum 0)]

def c2row : Row := [("orderID", Val.vNum 42), ("leavesQty", Val.vNum 5)]

/-- Claim C2, witness: the spec's own scenario — order 42 with `leavesQty` 5
updated to `leavesQty` 0 is merged, evicted, and invisible to `open_orders`. -/
theorem C2_witness :
    (getField (mergeRow c2row c2datum) "leavesQty" =
        match getField c2datum "leavesQty" with
        | some v => some v
        | none => getField c2row "leavesQty") ∧
    (onMessage c2store ⟨none, some "order", some "update", some [c2datum], none⟩ =
      setTable (ensureTable c2store (some "order")) (some "order")
        (([[("orderID", Val.vNum 42), ("leavesQty", Val.vNum 5)]].set 0
            (mergeRow c2row c2datum)).eraseIdx 0)) ∧
    mergeRow c2row c2datum ∉ ([] : List Row) := by
  have h := C2_update_merge_eviction c2store ["orderID"] c2datum
    [[("orderID", Val.vNum 42), ("leavesQty", Val.vNum 5)]] 0 c2row 0
    (by decide) (by decide) (by decide) (by decide) (by decide) (by decide)
    (by decide) (by decide)
  exact ⟨h.1 "leavesQty", h.2.1,
    h.2.2 "" [] (onMessage c2store ⟨none, some "order", some "update", some [c2datum], none⟩)
      (by decide)⟩

/-! ### Claim C3 -/

def c3store : Store := ⟨[(some "t", [[("k", Val.vNum 1)]])], [(some "t", ["k"])]⟩

def c3msg : Msg :=
  ⟨none, some "t", some "update",
   some [[("k", Val.vNum 1), ("v", Val.vNum 2)], [("k", Val.vNum 9)]], none⟩

/-- Claim C3, counterexample: an `update` message whose first row matches
(and is merged) and whose second row matches nothing leaves the merge of the
first row in the store — the claim's "no table-store change occurs beyond
the empty-table creation the message itself causes" fails.  The first
conjunct shows the second row is unmatched in the table state at its turn;
the table already exists, so the claim predicts `onMessage` returns the
store unchanged, yet it differs. -/
theorem C3_counterexample :
    findIdxE ["k"] [[("k", Val.vNum 1), ("v", Val.vNum 2)]] [("k", Val.vNum 9)]
      = .ok none ∧
    ensureTable c3store (some "t") = c3store ∧
    onMessage c3store c3msg ≠ c3store := by
  refine ⟨by decide, by decide, by decide⟩

/-- Claim C3 (amended): in an `update` message, a row that matches no
existing row abandons the entire remainder of the message silently — the
loop exits by early `return` (`.ret`), not by an exception, so no error
reaches the per-message boundary, and the unmatched row and all rows after
it produce no mutation; beyond the empty-table creation the message causes,
the only table-store changes are those made by the matched rows processed
earlier in the same message (none when the unmatched row comes first). -/
theorem C3_silent_drop (s : Store) (tbl : Option String) (ks : List String)
    (pre post : List Row) (d : Row) (t1 : List Row)
    (hks : getKeys? s tbl = some ks)
    (hpre : applyUpdateRows tbl (some ks) pre (getTableD s tbl) = .done t1)
    (hd : findIdxE ks t1 d = .ok none) :
    applyUpdateRows tbl (some ks) (pre ++ d :: post) (getTableD s tbl) = .ret t1 ∧
    onMessage s ⟨none, tbl, some "update", some (pre ++ d :: post), none⟩ =
      setTable (ensureTable s tbl) tbl t1 := by
  have hloop : applyUpdateRows tbl (some ks) (pre ++ d :: post) (getTableD s tbl)
      = .ret t1 := by
    rw [applyUpdateRows_append, hpre]
    simp only [applyUpdateRows, hd]
  refine ⟨hloop, ?_⟩
  rw [onMessage_update, hks, hloop]
  rfl

/-- Claim C3, witness: an update for a row never seen (`k = 9`) on a table
holding only `k = 1` mutates nothing, raises nothing. -/
theorem C3_witness :
    applyUpdateRows (some "t") (some ["k"]) ([] ++ [("k", Val.vNum 9)] :: [])
      (getTableD c3store (some "t")) = .ret [[("k", Val.vNum 1)]] ∧
    onMessage c3store ⟨none, some "t", some "update",
        some ([] ++ [("k", Val.vNum 9)] :: []), none⟩ =
      setTable (ensureTable c3store (some "t")) (some "t") [[("k", Val.vNum 1)]] :=
  C3_silent_drop c3store (some "t") ["k"] [] [] [("k", Val.vNum 9)]
    [[("k", Val.vNum 1)]] (by decide) (by decide) (by decide)

/-! ### Claim C5 -/

/-- Claim C5: a `delete` row that matches no existing row raises inside the
apply step (the loop returns `.error`), the error is caught at the
per-message boundary — `onMessage` returns normally with only the
empty-table creation applied, dropping the rest of that single message —
and the message stream keeps folding: the next messages are processed from
that state by the same total step function.  Likewise an unrecognized
action value only creates the empty table and is dropped. -/
theorem C5_delete_error_contained (s : Store) (tbl : Option String)
    (ks : List String) (d : Row) (rest : List Row) (ms : List Msg) (a : String)
    (hks : getKeys? s tbl = some ks)
    (hd : findIdxE ks (getTableD s tbl) d = .ok none)
    (h0 : a ≠ "") (h1 : a ≠ "partial") (h2 : a ≠ "insert") (h3 : a ≠ "update")
    (h4 : a ≠ "delete") :
    applyDeleteRows (some ks) (d :: rest) (getTableD s tbl)
      = .error (getTableD s tbl) ∧
    onMessage s ⟨none, tbl, some "delete", some (d :: rest), none⟩
      = ensureTable s tbl ∧
    onMessage s ⟨none, tbl, some a, some (d :: rest), none⟩ = ensureTable s tbl ∧
    processMsgs s (⟨none, tbl, some "delete", some (d :: rest), none⟩ :: ms) =
      processMsgs (onMessage s ⟨none, tbl, some "delete", some (d :: rest), none⟩) ms := by
  have hloop : applyDeleteRows (some ks) (d :: rest) (getTableD s tbl)
      = .error (getTableD s tbl) := by
    simp only [applyDeleteRows, hd]
  refine ⟨hloop, ?_, onMessage_unknown_action s tbl a _ _ h0 h1 h2 h3 h4, rfl⟩
  rw [onMessage_delete, hks, hloop]
  exact setTable_ensure_self s tbl

def c5store : Store :=
  ⟨[(some "order", [[("orderID", Val.vNum 7)]])], [(some "order", ["orderID"])]⟩

/-- Claim C5, witness: deleting the absent order 8 from a table holding only
order 7 raises inside the loop, is absorbed, and the stream continues. -/
theorem C5_witness :
    applyDeleteRows (some ["orderID"]) ([("orderID", Val.vNum 8)] :: [])
      (getTableD c5store (some "order"))
      = .error (getTableD c5store (some "order")) ∧
    onMessage c5store ⟨none, some "order", some "delete",
        some ([("orderID", Val.vNum 8)] :: []), none⟩ = ensureTable c5store (some "order") ∧
    onMessage c5store ⟨none, some "order", some "noop",
        some ([("orderID", Val.vNum 8)] :: []), none⟩ = ensureTable c5store (some "order") ∧
    processMsgs c5store (⟨none, some "order", some "delete",
        some ([("orderID", Val.vNum 8)] :: []), none⟩ :: []) =
      processMsgs (onMessage c5store ⟨none, some "order", some "delete",
        some ([("orderID", Val.vNum 8)] :: []), none⟩) [] :=
  C5_delete_error_contained c5store (some "order") ["orderID"]
    [("orderID", Val.vNum 8)] [] [] "noop" (by decide) (by decide)
    (by decide) (by decide) (by decide) (by decide) (by decide)

/-! ### Claim C10 -/

/-- Claim C10: one `update` or `delete` message is not atomic on its failure
path.  If the rows before an unmatched row `d` were applied (producing table
contents `t1`), then although the unmatched row aborts the message — by
early return for `update`, by a caught exception for `delete` — the final
store keeps `t1`: the merges, evictions and removals already performed for
the earlier rows of that same message persist and are not rolled back. -/
theorem C10_nonatomic (s : Store) (tbl : Option String) (ks : List String)
    (pre post : List Row) (d : Row) (t1 : List Row) :
    (getKeys? s tbl = some ks →
      applyUpdateRows tbl (some ks) pre (getTableD s tbl) = .done t1 →
      findIdxE ks t1 d = .ok none →
      onMessage s ⟨none, tbl, some "update", some (pre ++ d :: post), none⟩ =
        setTable (ensureTable s tbl) tbl t1) ∧
    (getKeys? s tbl = some ks →
      applyDeleteRows (some ks) pre (getTableD s tbl) = .ok t1 →
      findIdxE ks t1 d = .ok none →
      onMessage s ⟨none, tbl, some "delete", some (pre ++ d :: post), none⟩ =
        setTable (ensureTable s tbl) tbl t1) := by
  constructor
  · intro hks hpre hd
    rw [onMessage_update, hks, applyUpdateRows_append, hpre]
    simp only [applyUpdateRows, hd]
    rfl
  · intro hks hpre hd
    rw [onMessage_delete, hks, applyDeleteRows_append, hpre]
    simp only [applyDeleteRows, hd]
    rfl

def c10store : Store :=
  ⟨[(some "t", [[("k", Val.vNum 1)], [("k", Val.vNum 2)]])], [(some "t", ["k"])]⟩

/-- Claim C10, witness: a two-row update whose second row is unmatched keeps
the first row's merge; a two-row delete whose second row is unmatched keeps
the first row's removal. -/
theorem C10_witness :
    onMessage c10store ⟨none, some "t", some "update",
        some ([[("k", Val.vNum 1), ("v", Val.vNum 5)]] ++ [("k", Val.vNum 9)] :: []), none⟩ =
      setTable (ensureTable c10store (some "t")) (some "t")
        [[("k", Val.vNum 1), ("v", Val.vNum 5)], [("k", Val.vNum 2)]] ∧
    onMessage c10store ⟨none, some "t", some "delete",
        some ([[("k", Val.vNum 1)]] ++ [("k", Val.vNum 9)] :: []), none⟩ =
      setTable (ensureTable c10store (some "t")) (some "t") [[("k", Val.vNum 2)]] :=
  ⟨(C10_nonatomic c10store (some "t") ["k"] [[("k", Val.vNum 1), ("v", Val.vNum 5)]]
      [] [("k", Val.vNum 9)] [[("k", Val.vNum 1), ("v", Val.vNum 5)], [("k", Val.vNum 2)]]).1
      (by decide) (by decide) (by decide),
   (C10_nonatomic c10store (some "t") ["k"] [[("k", Val.vNum 1)]]
      [] [("k", Val.vNum 9)] [[("k", Val.vNum 2)]]).2
      (by decide) (by decide) (by decide)⟩

/-! ### Matching-rule helper lemmas -/

/-- A successful full-key match means every key of the key set has equal
(and present) values in the candidate row and the match datum. -/
theorem rowMatchE_true_lookup (ks : List String) (item d : Row)
    (h : rowMatchE ks item d = .ok true) (k : String) (hk : k ∈ ks) :
    ∃ v, lookupF item k = .ok v ∧ lookupF d k = .ok v := by
  induction ks with
  | nil => simp at hk
  | cons k0 rest ih =>
    unfold rowMatchE at h
    cases h1 : lookupF item k0 with
    | error e => rw [h1] at h; simp at h
    | ok a =>
      rw [h1] at h
      cases h2 : lookupF d k0 with
      | error e => rw [h2] at h; simp at h
      | ok b =>
        rw [h2] at h
        cases h3 : rowMatchE rest item d with
        | error e => rw [h3] at h; simp at h
        | ok m =>
          rw [h3] at h
          simp only [Except.ok.injEq, Bool.and_eq_true, decide_eq_true_eq] at h
          rcases List.mem_cons.mp hk with rfl | hk2
          · exact ⟨a, h1, by rw [h2, h.1]⟩
          · rw [h.2] at h3
            exact ih h3 hk2

/-- A single matched `update` row on a non-`order` table merges in place at
the matched index and nothing else. -/
theorem applyUpdateRows_single (tbl : Option String) (ks : List String)
    (d : Row) (t : List Row) (i : Nat) (r : Row) (htbl : tbl ≠ some "order")
    (hf : findIdxE ks t d = .ok (some i)) (hr : t[i]? = some r) (hne : r ≠ []) :
    applyUpdateRows tbl (some ks) [d] t = .done (t.set i (mergeRow r d)) := by
  simp only [applyUpdateRows, hf]
  rw [show t[i]?.getD [] = r from by rw [hr]; rfl, if_neg hne, if_neg htbl]

/-- A single matched `delete` row removes exactly the matched index. -/
theorem applyDeleteRows_single (ks : List String) (d : Row) (t : List Row)
    (i : Nat) (hf : findIdxE ks t d = .ok (some i)) :
    applyDeleteRows (some ks) [d] t = .ok (t.eraseIdx i) := by
  simp only [applyDeleteRows, hf]

/-! ### Claim C4 -/

/-- Claim C4: row matching requires equality on every field of the key set.
For key set `{symbol, level}` and an update row `{symbol: sv, level: lv,
price: pv}` on a table other than `order` (the `order` table's key set is
`orderID`; its eviction rule does not apply here): the table keeps its
length; every row whose `symbol` or `level` differs from the datum's is left
completely unchanged in its original position; the first row matching both
fields (if any, and non-empty) is the only one modified, by the in-place
merge; and a `delete` with the same datum removes exactly the matched row,
which agrees with the datum on both key fields. -/
theorem C4_key_matching (tbl : Option String) (t : List Row) (sv lv pv : Val)
    (d : Row) (htbl : tbl ≠ some "order")
    (hd : d = [("symbol", sv), ("level", lv), ("price", pv)]) :
    ((LoopRes.table (applyUpdateRows tbl (some ["symbol", "level"]) [d] t)).length
        = t.length) ∧
    (∀ i : Nat, ∀ r2 : Row, t[i]? = some r2 →
      lookupF r2 "symbol" ≠ .ok sv ∨ lookupF r2 "level" ≠ .ok lv →
      (LoopRes.table (applyUpdateRows tbl (some ["symbol", "level"]) [d] t))[i]?
        = some r2) ∧
    (∀ i : Nat, ∀ r2 : Row, findIdxE ["symbol", "level"] t d = .ok (some i) →
      t[i]? = some r2 → r2 ≠ [] →
      applyUpdateRows tbl (some ["symbol", "level"]) [d] t
        = .done (t.set i (mergeRow r2 d))) ∧
    (∀ i : Nat, findIdxE ["symbol", "level"] t d = .ok (some i) →
      applyDeleteRows (some ["symbol", "level"]) [d] t = .ok (t.eraseIdx i) ∧
      lookupF (t[i]?.getD []) "symbol" = .ok sv ∧
      lookupF (t[i]?.getD []) "level" = .ok lv) := by
  subst hd
  have hds : lookupF [("symbol", sv), ("level", lv), ("price", pv)] "symbol"
      = .ok sv := rfl
  have hdl : lookupF [("symbol", sv), ("level", lv), ("price", pv)] "level"
      = .ok lv := by simp [lookupF]
  have hmatch : ∀ j, findIdxE ["symbol", "level"] t
        [("symbol", sv), ("level", lv), ("price", pv)] = .ok (some j) →
      lookupF (t[j]?.getD []) "symbol" = .ok sv ∧
      lookupF (t[j]?.getD []) "level" = .ok lv := by
    intro j hj
    obtain ⟨hlen, hmt, _⟩ := findIdxE_some _ _ _ _ hj
    obtain ⟨v1, hv1, hv1d⟩ := rowMatchE_true_lookup _ _ _ hmt "symbol" (by simp)
    obtain ⟨v2, hv2, hv2d⟩ := rowMatchE_true_lookup _ _ _ hmt "level" (by simp)
    rw [hds] at hv1d
    rw [hdl] at hv2d
    rw [← Except.ok.inj hv1d] at hv1
    rw [← Except.ok.inj hv2d] at hv2
    exact ⟨hv1, hv2⟩
  refine ⟨?_, ?_, ?_, ?_⟩
  · cases hf : findIdxE ["symbol", "level"] t
        [("symbol", sv), ("level", lv), ("price", pv)] with
    | error e => simp [applyUpdateRows, hf, LoopRes.table]
    | ok o =>
      cases o with
      | none => simp [applyUpdateRows, hf, LoopRes.table]
      | some j =>
        by_cases hij : t[j]?.getD [] = ([] : Row)
        · simp [applyUpdateRows, hf, hij, LoopRes.table]
        · simp only [applyUpdateRows, hf]
          rw [if_neg hij, if_neg htbl]
          simp [applyUpdateRows, LoopRes.table]
  · intro i r2 hi hmm
    cases hf : findIdxE ["symbol", "level"] t
        [("symbol", sv), ("level", lv), ("price", pv)] with
    | error e => simp only [applyUpdateRows, hf]; exact hi
    | ok o =>
      cases o with
      | none => simp only [applyUpdateRows, hf]; exact hi
      | some j =>
        by_cases hij : t[j]?.getD [] = ([] : Row)
        · simp only [applyUpdateRows, hf]
          rw [if_pos hij]
          exact hi
        · have hres : applyUpdateRows tbl (some ["symbol", "level"])
              [[("symbol", sv), ("level", lv), ("price", pv)]] t
              = .done (t.set j (mergeRow (t[j]?.getD [])
                  [("symbol", sv), ("level", lv), ("price", pv)])) := by
            simp only [applyUpdateRows, hf]
            rw [if_neg hij, if_neg htbl]
          have hij2 : i ≠ j := by
            intro hc
            subst hc
            obtain ⟨hm1, hm2⟩ := hmatch i hf
            rw [show t[i]?.getD [] = r2 from by rw [hi]; rfl] at hm1 hm2
            rcases hmm with hmm | hmm
            · exact hmm hm1
            · exact hmm hm2
          rw [hres]
          show (t.set j _)[i]? = some r2
          rw [List.getElem?_set_ne (fun c => hij2 c.symm)]
          exact hi
  · intro i r2 hj hi hne
    exact applyUpdateRows_single tbl _ _ t i r2 htbl hj hi hne
  · intro i hj
    exact ⟨applyDeleteRows_single _ _ _ _ hj, hmatch i hj⟩

def c4table : List Row :=
  [[("symbol", Val.vStr "X"), ("level", Val.vNum 1), ("price", Val.vNum 50)],
   [("symbol", Val.vStr "Y"), ("level", Val.vNum 1), ("price", Val.vNum 60)],
   [("symbol", Val.vStr "X"), ("level", Val.vNum 2), ("price", Val.vNum 70)]]

/-- Claim C4, witness: the spec's book scenario — updating
`{symbol: "X", level: 1, price: 99}` in a three-row book touches only the
row with both `symbol = "X"` and `level = 1`, leaving the rows differing in
either key field unchanged in place, and a delete removes exactly it. -/
theorem C4_witness :
    ((LoopRes.table (applyUpdateRows (some "orderBook25") (some ["symbol", "level"])
        [[("symbol", Val.vStr "X"), ("level", Val.vNum 1), ("price", Val.vNum 99)]]
        c4table)).length = c4table.length) ∧
    ((LoopRes.table (applyUpdateRows (some "orderBook25") (some ["symbol", "level"])
        [[("symbol", Val.vStr "X"), ("level", Val.vNum 1), ("price", Val.vNum 99)]]
        c4table))[1]? =
      some [("symbol", Val.vStr "Y"), ("level", Val.vNum 1), ("price", Val.vNum 60)]) ∧
    ((LoopRes.table (applyUpdateRows (some "orderBook25") (some ["symbol", "level"])
        [[("symbol", Val.vStr "X"), ("level", Val.vNum 1), ("price", Val.vNum 99)]]
        c4table))[2]? =
      some [("symbol", Val.vStr "X"), ("level", Val.vNum 2), ("price", Val.vNum 70)]) ∧
    (applyUpdateRows (some "orderBook25") (some ["symbol", "level"])
        [[("symbol", Val.vStr "X"), ("level", Val.vNum 1), ("price", Val.vNum 99)]]
        c4table =
      .done (c4table.set 0 (mergeRow
        [("symbol", Val.vStr "X"), ("level", Val.vNum 1), ("price", Val.vNum 50)]
        [("symbol", Val.vStr "X"), ("level", Val.vNum 1), ("price", Val.vNum 99)]))) ∧
    (applyDeleteRows (some ["symbol", "level"])
        [[("symbol", Val.vStr "X"), ("level", Val.vNum 1), ("price", Val.vNum 99)]]
        c4table = .ok (c4table.eraseIdx 0)) := by
  have h := C4_key_matching (some "orderBook25") c4table (Val.vStr "X")
    (Val.vNum 1) (Val.vNum 99)
    [("symbol", Val.vStr "X"), ("level", Val.vNum 1), ("price", Val.vNum 99)]
    (by decide) rfl
  exact ⟨h.1,
    h.2.1 1 [("symbol", Val.vStr "Y"), ("level", Val.vNum 1), ("price", Val.vNum 60)]
      (by decide) (Or.inl (by decide)),
    h.2.1 2 [("symbol", Val.vStr "X"), ("level", Val.vNum 2), ("price", Val.vNum 70)]
      (by decide) (Or.inr (by decide)),
    h.2.2.1 0 [("symbol", Val.vStr "X"), ("level", Val.vNum 1), ("price", Val.vNum 50)]
      (by decide) (by decide) (by decide),
    (h.2.2.2 0 (by decide)).1⟩

/-! ### Claim C9 -/

/-- Claim C9: `findItemByKeys` scans the table in insertion order and
returns the first row matching the datum on every key-set field: the found
index is in range, matches, and every earlier index does not.  Consequently
a `delete` datum removes exactly the matched index and an `update` datum
(on a non-`order` table, matched row non-empty) rewrites exactly the
matched index, so each datum mutates or removes at most one row even when
several rows match.  With an empty key set the first row of a non-empty
table is the one matched. -/
theorem C9_find_first_match (ks : List String) (t : List Row) (d : Row)
    (i : Nat) (h : findIdxE ks t d = .ok (some i)) :
    (i < t.length ∧ rowMatchE ks (t[i]?.getD []) d = .ok true ∧
      ∀ j, j < i → rowMatchE ks (t[j]?.getD []) d = .ok false) ∧
    applyDeleteRows (some ks) [d] t = .ok (t.eraseIdx i) ∧
    (∀ tbl r, tbl ≠ some "order" → t[i]? = some r → r ≠ [] →
      applyUpdateRows tbl (some ks) [d] t = .done (t.set i (mergeRow r d))) ∧
    (ks = [] → i = 0) ∧
    (∀ r2 : Row, ∀ rest2 : List Row, ∀ d2 : Row,
      findIdxE ([] : List String) (r2 :: rest2) d2 = .ok (some 0)) := by
  refine ⟨findIdxE_some ks t d i h, applyDeleteRows_single ks d t i h,
    fun tbl r htbl hr hne => applyUpdateRows_single tbl ks d t i r htbl h hr hne,
    ?_, fun r2 rest2 d2 => rfl⟩
  intro hks
  subst hks
  cases t with
  | nil => simp [findIdxE] at h
  | cons r rest =>
    have h0 : findIdxE [] (r :: rest) d = .ok (some 0) := rfl
    rw [h0] at h
    exact (Option.some.inj (Except.ok.inj h)).symm

def c9table : List Row :=
  [[("k", Val.vNum 1)], [("k", Val.vNum 2)], [("k", Val.vNum 2)]]

def c9datum : Row := [("k", Val.vNum 2), ("v", Val.vNum 9)]

/-- Claim C9, witness: with two rows matching `k = 2`, the find returns the
first of them (index 1, not 2), the earlier row mismatches, delete removes
only index 1, update rewrites only index 1, and an empty key set matches
the first row. -/
theorem C9_witness :
    (1 < c9table.length ∧
      rowMatchE ["k"] (c9table[1]?.getD []) c9datum = .ok true ∧
      rowMatchE ["k"] (c9table[0]?.getD []) c9datum = .ok false) ∧
    applyDeleteRows (some ["k"]) [c9datum] c9table = .ok (c9table.eraseIdx 1) ∧
    applyUpdateRows (some "t") (some ["k"]) [c9datum] c9table
      = .done (c9table.set 1 (mergeRow [("k", Val.vNum 2)] c9datum)) ∧
    findIdxE ([] : List String) ([("a", Val.vNum 1)] :: []) ([] : Row)
      = .ok (some 0) := by
  have h := C9_find_first_match ["k"] c9table c9datum 1 (by decide)
  exact ⟨⟨h.1.1, h.1.2.1, h.1.2.2 0 (by decide)⟩, h.2.1,
    h.2.2.1 (some "t") [("k", Val.vNum 2)] (by decide) (by decide) (by decide),
    h.2.2.2.2 [("a", Val.vNum 1)] [] []⟩

/-! ### Claim C6 -/

def c6store : Store := ⟨[(some "instrument", [[("tickSize", Val.vNum 1)]])], []⟩

/-- Claim C6, counterexample: `get_instrument` is NOT read-only.
`instrument['tickLog'] = ...` writes the derived field into the row object
held by the `instrument` table: on a store whose instrument row is
`{tickSize: 1}`, the call returns a store whose stored row has gained the
`tickLog` field, differing from the input store. -/
theorem C6_counterexample :
    getInstrument c6store = .ok
      ([("tickSize", Val.vNum 1), ("tickLog", Val.vNum 0)],
       ⟨[(some "instrument",
          [[("tickSize", Val.vNum 1), ("tickLog", Val.vNum 0)]])], []⟩) ∧
    (⟨[(some "instrument",
        [[("tickSize", Val.vNum 1), ("tickLog", Val.vNum 0)]])], []⟩ : Store)
      ≠ c6store := by
  constructor
  · have htl : tickLogQ 1 = 0 := by simp [tickLogQ]
    have base : getInstrument c6store = .ok
        ([("tickSize", Val.vNum 1), ("tickLog", Val.vNum ((tickLogQ 1 : ℤ) : ℚ))],
         ⟨[(some "instrument",
            [[("tickSize", Val.vNum 1),
              ("tickLog", Val.vNum ((tickLogQ 1 : ℤ) : ℚ))]])], []⟩) := rfl
    rw [base, htl]
    simp
  · decide

/-- Claim C6 (amended): the read methods other than `get_instrument` —
`get_ticker`, `funds`, `market_depth`, `open_orders`, `recent_trades` — are
read-only: whenever one of them returns, the table store it hands back is
the store it was given, unchanged.  (`get_instrument` is the exception: it
writes the derived `tickLog` field into the stored instrument row, as the
counterexample shows.) -/
theorem C6_reads_preserve_store :
    (∀ s r s2, getTicker s = .ok (r, s2) → s2 = s) ∧
    (∀ s r s2, funds s = .ok (r, s2) → s2 = s) ∧
    (∀ s l s2, marketDepth s = .ok (l, s2) → s2 = s) ∧
    (∀ s l s2, recentTrades s = .ok (l, s2) → s2 = s) ∧
    (∀ pfx s l s2, openOrders pfx s = .ok (l, s2) → s2 = s) := by
  refine ⟨?_, ?_, ?_, ?_, ?_⟩
  · intro s r s2 h
    unfold getTicker at h
    cases hg : getTickerRow s with
    | error e => rw [hg] at h; simp at h
    | ok row =>
      rw [hg] at h
      simp only [Except.ok.injEq, Prod.mk.injEq] at h
      exact h.2.symm
  · intro s r s2 h
    unfold funds at h
    cases hg : getTable? s (some "margin") with
    | none => rw [hg] at h; simp at h
    | some t =>
      rw [hg] at h
      simp only [] at h
      cases h0 : t.get? 0 with
      | none => rw [h0] at h; simp at h
      | some r0 =>
        rw [h0] at h
        simp only [Except.ok.injEq, Prod.mk.injEq] at h
        exact h.2.symm
  · intro s l s2 h
    unfold marketDepth at h
    cases hg : getTable? s (some "orderBook25") with
    | none => rw [hg] at h; simp at h
    | some t =>
      rw [hg] at h
      simp only [Except.ok.injEq, Prod.mk.injEq] at h
      exact h.2.symm
  · intro s l s2 h
    unfold recentTrades at h
    cases hg : getTable? s (some "trade") with
    | none => rw [hg] at h; simp at h
    | some t =>
      rw [hg] at h
      simp only [Except.ok.injEq, Prod.mk.injEq] at h
      exact h.2.symm
  · intro pfx s l s2 h
    unfold openOrders at h
    cases hg : getTable? s (some "order") with
    | none => rw [hg] at h; simp at h
    | some t =>
      rw [hg] at h
      simp only [] at h
      cases hof : openOrdersFilter pfx t with
      | error e => rw [hof] at h; simp at h
      | ok l2 =>
        rw [hof] at h
        simp only [Except.ok.injEq, Prod.mk.injEq] at h
        exact h.2.symm

def c6wstore : Store :=
  ⟨[(some "margin", [[("x", Val.vNum 1)]]), (some "order", [])], []⟩

/-- Claim C6, witness: `funds` and `open_orders` on a concrete store return
with the store unchanged. -/
theorem C6_witness : c6wstore = c6wstore ∧ c6wstore = c6wstore := by
  constructor
  · exact C6_reads_preserve_store.2.1 c6wstore [("x", Val.vNum 1)] c6wstore (by decide)
  · exact C6_reads_preserve_store.2.2.2.2 "bot" c6wstore [] c6wstore (by rfl)

/-! ### Claim C7 -/

def c7store : Store :=
  ⟨[(some "quote", [[("bidPrice", Val.vNum 100), ("askPrice", Val.vNum (201 / 2))]]),
    (some "trade", [[("price", Val.vNum (10037 / 100))]]),
    (some "instrument", [[("tickSize", Val.vNum (1 / 2)), ("tickLog", Val.vNum 0)]])],
   []⟩

/-- Claim C7, counterexample: with tickLog 0, last trade 100.37, bid 100.0,
ask 100.5, `get_ticker` returns `sell = 100`, not the claimed 101: Python 3
`round` rounds the tie 100.5 to the even neighbour 100. -/
theorem C7_counterexample :
    getTicker c7store = .ok
      ([("last", Val.vNum 100), ("buy", Val.vNum 100),
        ("sell", Val.vNum 100), ("mid", Val.vNum 100)], c7store) ∧
    ([("last", Val.vNum 100), ("buy", Val.vNum 100),
      ("sell", Val.vNum 100), ("mid", Val.vNum 100)] : Row) ≠
      [("last", Val.vNum 100), ("buy", Val.vNum 100),
       ("sell", Val.vNum 101), ("mid", Val.vNum 100)] := by
  constructor
  · have base : getTicker c7store = .ok
        ([("last", Val.vNum (pyRound (10037 / 100) 0)),
          ("buy", Val.vNum (pyRound 100 0)),
          ("sell", Val.vNum (pyRound (201 / 2) 0)),
          ("mid", Val.vNum (pyRound ((100 + 201 / 2) / 2) 0))], c7store) := rfl
    have h1 : pyRound (10037 / 100) 0 = 100 := by norm_num [pyRound, rhe]
    have h2 : pyRound 100 0 = 100 := by norm_num [pyRound, rhe]
    have h3 : pyRound (201 / 2) 0 = 100 := by norm_num [pyRound, rhe]
    have h4 : pyRound ((100 + 201 / 2) / 2) 0 = 100 := by norm_num [pyRound, rhe]
    rw [base, h1, h2, h3, h4]
  · decide

/-- Claim C7 (amended): in the claimed scenario `get_ticker()` returns
`{last: 100, buy: 100, sell: 100, mid: 100}` — the `sell` field is 100, not
101, because Python 3 rounds the exact tie 100.5 half-to-even; the other
three fields round as the claim states. -/
theorem C7_ticker_rounding :
    getTicker c7store = .ok
      ([("last", Val.vNum 100), ("buy", Val.vNum 100),
        ("sell", Val.vNum 100), ("mid", Val.vNum 100)], c7store) := by
  have base : getTicker c7store = .ok
      ([("last", Val.vNum (pyRound (10037 / 100) 0)),
        ("buy", Val.vNum (pyRound 100 0)),
        ("sell", Val.vNum (pyRound (201 / 2) 0)),
        ("mid", Val.vNum (pyRound ((100 + 201 / 2) / 2) 0))], c7store) := rfl
  have h1 : pyRound (10037 / 100) 0 = 100 := by norm_num [pyRound, rhe]
  have h2 : pyRound 100 0 = 100 := by norm_num [pyRound, rhe]
  have h3 : pyRound (201 / 2) 0 = 100 := by norm_num [pyRound, rhe]
  have h4 : pyRound ((100 + 201 / 2) / 2) 0 = 100 := by norm_num [pyRound, rhe]
  rw [base, h1, h2, h3, h4]

/-! ### Claim C8: exact integer log vs real log10 -/

theorem intLog_ratCast (q : ℚ) (hq : 0 < q) :
    Int.log 10 ((q : ℝ)) = Int.log 10 q := by
  have hq2 : (0 : ℝ) < (q : ℝ) := by exact_mod_cast hq
  have h1 : ((10 : ℕ) : ℚ) ^ (Int.log 10 q) ≤ q :=
    Int.zpow_log_le_self (by norm_num) hq
  have h2 : q < ((10 : ℕ) : ℚ) ^ (Int.log 10 q + 1) :=
    Int.lt_zpow_succ_log_self (by norm_num) q
  have h1R : ((10 : ℕ) : ℝ) ^ (Int.log 10 q) ≤ (q : ℝ) := by
    have h3 := (Rat.cast_le (K := ℝ)).mpr h1
    rwa [Rat.cast_zpow, Rat.cast_natCast] at h3
  have h2R : (q : ℝ) < ((10 : ℕ) : ℝ) ^ (Int.log 10 q + 1) := by
    have h3 := (Rat.cast_lt (K := ℝ)).mpr h2
    rwa [Rat.cast_zpow, Rat.cast_natCast] at h3
  have hle : Int.log 10 q ≤ Int.log 10 ((q : ℝ)) :=
    (Int.zpow_le_iff_le_log (by norm_num) hq2).mp h1R
  have hlt : Int.log 10 ((q : ℝ)) < Int.log 10 q + 1 :=
    (Int.lt_zpow_iff_log_lt (by norm_num) hq2).mp h2R
  omega

theorem intClog_ratCast (q : ℚ) (hq : 0 < q) :
    Int.clog 10 ((q : ℝ)) = Int.clog 10 q := by
  have hq2 : (0 : ℝ) < (q : ℝ) := by exact_mod_cast hq
  have h1 : q ≤ ((10 : ℕ) : ℚ) ^ (Int.clog 10 q) :=
    Int.self_le_zpow_clog (by norm_num) q
  have h2 : ((10 : ℕ) : ℚ) ^ (Int.clog 10 q - 1) < q :=
    Int.zpow_pred_clog_lt_self (by norm_num) hq
  have h1R : (q : ℝ) ≤ ((10 : ℕ) : ℝ) ^ (Int.clog 10 q) := by
    have h3 := (Rat.cast_le (K := ℝ)).mpr h1
    rwa [Rat.cast_zpow, Rat.cast_natCast] at h3
  have h2R : ((10 : ℕ) : ℝ) ^ (Int.clog 10 q - 1) < (q : ℝ) := by
    have h3 := (Rat.cast_lt (K := ℝ)).mpr h2
    rwa [Rat.cast_zpow, Rat.cast_natCast] at h3
  have hle : Int.clog 10 ((q : ℝ)) ≤ Int.clog 10 q :=
    (Int.le_zpow_iff_clog_le (by norm_num) hq2).mp h1R
  have hlt : Int.clog 10 q - 1 < Int.clog 10 ((q : ℝ)) :=
    (Int.zpow_lt_iff_lt_clog (by norm_num) hq2).mp h2R
  omega

/-- The embedding's `tickLogQ` is exactly `⌊|log10 q|⌋`: Python's
`int(math.fabs(math.log10(q)))` truncates toward zero a nonnegative real,
which is its floor. -/
theorem tickLog_eq_floor_logb (q : ℚ) (hq : 0 < q) :
    tickLogQ q = ⌊|Real.logb 10 (q : ℝ)|⌋ := by
  have hq2 : (0 : ℝ) < (q : ℝ) := by exact_mod_cast hq
  unfold tickLogQ
  by_cases h1 : 1 ≤ q
  · rw [if_pos h1]
    have h1R : (1 : ℝ) ≤ (q : ℝ) := by exact_mod_cast h1
    rw [abs_of_nonneg (Real.logb_nonneg (by norm_num) h1R)]
    have hfl : ⌊Real.logb 10 (q : ℝ)⌋ = Int.log 10 ((q : ℝ)) := by
      exact_mod_cast Real.floor_logb_natCast hq2.le
    rw [hfl, intLog_ratCast q hq]
  · rw [if_neg h1]
    have hlt : (q : ℝ) ≤ 1 := by
      push_neg at h1
      exact_mod_cast h1.le
    rw [abs_of_nonpos (Real.logb_nonpos (by norm_num) hq2.le hlt)]
    rw [Int.floor_neg]
    have hcl : ⌈Real.logb 10 (q : ℝ)⌉ = Int.clog 10 ((q : ℝ)) := by
      exact_mod_cast Real.ceil_logb_natCast hq2.le
    rw [hcl, intClog_ratCast q hq]

/-- `round(|log10 4|) = 1`: `log10 4 ≈ 0.602` lies in `[1/2, 1)`. -/
theorem round_logb_four : round |Real.logb 10 (((4 : ℚ) : ℝ))| = 1 := by
  have h10 : (1 : ℝ) < 10 := by norm_num
  have hcast : (((4 : ℚ) : ℝ)) = (4 : ℝ) := by norm_num
  rw [hcast]
  have hpos : (0 : ℝ) ≤ Real.logb 10 4 :=
    Real.logb_nonneg h10 (by norm_num)
  rw [abs_of_nonneg hpos]
  have hlow : (1 : ℝ) / 2 ≤ Real.logb 10 4 := by
    rw [Real.le_logb_iff_rpow_le h10 (by norm_num)]
    rw [show (10 : ℝ) ^ ((1 : ℝ) / 2) = Real.sqrt 10 from (Real.sqrt_eq_rpow 10).symm]
    calc Real.sqrt 10 ≤ Real.sqrt 16 := Real.sqrt_le_sqrt (by norm_num)
      _ = 4 := by
          rw [show (16 : ℝ) = 4 ^ 2 by norm_num]
          exact Real.sqrt_sq (by norm_num)
  have hup : Real.logb 10 4 < 1 := by
    have h4 := Real.logb_lt_logb h10 (show (0 : ℝ) < 4 by norm_num)
      (show (4 : ℝ) < 10 by norm_num)
    rwa [Real.logb_self_eq_one (by norm_num)] at h4
  rw [round_eq]
  rw [Int.floor_eq_iff]
  constructor
  · push_cast
    linarith
  · push_cast
    linarith

/-- `int(|log10 4|) = 0`: truncation loses the fractional part `0.602`. -/
theorem tickLogQ_four : tickLogQ 4 = 0 := by
  unfold tickLogQ
  rw [if_pos (by norm_num)]
  rw [Int.log_ofNat]
  norm_num [Nat.log_eq_zero_iff]

def c8store : Store := ⟨[(some "instrument", [[("tickSize", Val.vNum 4)]])], []⟩

/-- Claim C8, counterexample: for an instrument with `tickSize = 4`, the
code stores `tickLog = int(|log10 4|) = 0` (truncation), while the claim's
`round(|log10 4|)` is `1` — `get_instrument` does not return
`round(|log10 tickSize|)`. -/
theorem C8_counterexample :
    (getInstrument c8store).map (fun p => getField p.1 "tickLog")
      ≠ .ok (some (Val.vNum ((round |Real.logb 10 (((4 : ℚ) : ℝ))| : ℤ) : ℚ))) := by
  have h1 : (getInstrument c8store).map (fun p => getField p.1 "tickLog")
      = .ok (some (Val.vNum (tickLogQ 4 : ℚ))) := rfl
  rw [h1, round_logb_four, tickLogQ_four]
  simp

/-- Claim C8 (amended): for every store whose `instrument` table is
non-empty with a numeric positive `tickSize` field `q` in its first row,
`get_instrument()` returns that sole (first) row augmented with a field
`tickLog` equal to `⌊|log10 q|⌋` — the truncation `int(|log10 q|)`, not
`round(|log10 q|)` — and writes the augmented row back into the table. -/
theorem C8_instrument_ticklog (s : Store) (t : List Row) (r : Row) (q : ℚ)
    (ht : getTable? s (some "instrument") = some t) (hr : t.get? 0 = some r)
    (hts : lookupF r "tickSize" = .ok (Val.vNum q)) (hq : 0 < q) :
    getInstrument s = .ok
      (setField r "tickLog" (Val.vNum (tickLogQ q : ℚ)),
       setTable s (some "instrument")
         (t.set 0 (setField r "tickLog" (Val.vNum (tickLogQ q : ℚ))))) ∧
    tickLogQ q = ⌊|Real.logb 10 (q : ℝ)|⌋ := by
  refine ⟨?_, tickLog_eq_floor_logb q hq⟩
  unfold getInstrument
  rw [ht]
  simp only []
  rw [hr]
  simp only []
  rw [hts]
  simp only []
  have ha : asPosRat (Val.vNum q) = .ok q := by
    show (if 0 < q then (Except.ok q : Except String ℚ)
        else .error "ValueError: math domain error") = .ok q
    rw [if_pos hq]
  rw [ha]

def c8wstore : Store := ⟨[(some "instrument", [[("tickSize", Val.vNum 1)]])], []⟩

/-- Claim C8, witness: `tickSize = 1` yields `tickLog = ⌊|log10 1|⌋` stored
into the instrument row. -/
theorem C8_witness :
    getInstrument c8wstore = .ok
      (setField [("tickSize", Val.vNum 1)] "tickLog" (Val.vNum (tickLogQ 1 : ℚ)),
       setTable c8wstore (some "instrument")
         ([[("tickSize", Val.vNum 1)]].set 0
           (setField [("tickSize", Val.vNum 1)] "tickLog" (Val.vNum (tickLogQ 1 : ℚ))))) ∧
    tickLogQ 1 = ⌊|Real.logb 10 ((1 : ℚ) : ℝ)|⌋ :=
  C8_instrument_ticklog c8wstore [[("tickSize", Val.vNum 1)]]
    [("tickSize", Val.vNum 1)] 1 rfl rfl rfl (by norm_num)

end BitmexWS
